import Mathlib

/-!
Verification of the in-memory contact manager core.

Shallow embedding of `virtual_assistant_HW3.py`: validated field types
(`Phone`, `Birthday`), contact records, the address book, and the
upcoming-birthday report, together with theorems settling the claims of
the specification.

Python strings are modelled as Lean `String` (a sequence of Unicode code
points, as in Python); `len` is the number of code points.  Python
exceptions are modelled with `Except PyErr`; a function that mutates its
receiver in Python is modelled as returning the updated value, so a call
that ends in `Except.error` leaves every object exactly as it was.
-/

/-- The exception classes distinguished by the program's `input_error`
decorator (`virtual_assistant_HW3.py`, lines 134-144). -/
inductive PyErr
  | valueError
  | keyError
  | indexError
deriving DecidableEq

/-- Python's `str.isdigit` on one character: true exactly for the Unicode
characters of numeric type Decimal or Digit.  We include the ASCII digits
together with the non-ASCII digit characters this development uses as
inputs: the Latin-1 superscripts U+00B9/U+00B2/U+00B3 and the
Arabic-Indic decimal digits U+0660-U+0669 (all of them accepted by
CPython's `str.isdigit`).  Python accepts further Unicode digit
characters; every one of them lies outside ASCII, so the ASCII-restricted
theorems below are unaffected. -/
def pyIsDigitChar (c : Char) : Bool :=
  c.isDigit || c = '¹' || c = '²' || c = '³' ||
    (0x660 ≤ c.toNat && c.toNat ≤ 0x669)

/-- Python's `str.isdigit`: false on the empty string, otherwise true iff
every character is a digit character. -/
def pyStrIsDigit (s : String) : Bool :=
  !s.data.isEmpty && s.data.all pyIsDigitChar

/-- Source `Phone.is_valid_phone` (line 37): `len(value) == 10 and value.isdigit()`. -/
def is_valid_phone (value : String) : Bool :=
  value.length == 10 && pyStrIsDigit value

/-- Source `Phone.__init__` (lines 30-33): store the raw string, raising
`ValueError` unless `is_valid_phone` holds.  On success the stored value
is the raw string itself. -/
def phoneInit (value : String) : Except PyErr String :=
  if is_valid_phone value then .ok value else .error .valueError

/-! ## `datetime.strptime(value, '%d.%m.%Y')`

CPython's `_strptime` compiles the format into an anchored regular
expression built from
`'d': 3[01]|[12]\d|0[1-9]|[1-9]| [1-9]`, `'m': 1[0-2]|0[1-9]|[1-9]` and
`'Y': \d\d\d\d`, with `.` matched literally, and rejects the input unless
the whole string is consumed; it then builds `datetime(year, month, day)`,
which raises `ValueError` when the triple is not a real calendar date or
the year is outside 1..9999.  We model the regex alternation by
enumerating, for each directive, every way it can split the input into a
consumed token and a remainder (regex backtracking explores exactly these
splits).  The pattern is compiled without `re.ASCII`, so `\d` matches
any Unicode decimal digit and `int()` converts it; `\d` is modelled by
`pyReDigit` below. -/

/-- Numeric value of an ASCII digit character. -/
def digVal (c : Char) : Nat := c.toNat - 48

/-- Regex `\d` in a CPython str pattern compiled without `re.ASCII`: any
Unicode decimal digit (category Nd).  We include the ASCII digits
together with the Arabic-Indic decimal digits U+0660-U+0669 used as
inputs in this development; Python accepts digits of further Nd blocks,
every one of them outside ASCII, so the ASCII-restricted theorems below
are unaffected. -/
def pyReDigit (c : Char) : Bool :=
  c.isDigit || (0x660 ≤ c.toNat && c.toNat ≤ 0x669)

/-- Numeric value `int()` gives a modelled decimal-digit character (each
Nd block is aligned so the value is the offset from the block start). -/
def pyDigitVal (c : Char) : Nat :=
  if 0x660 ≤ c.toNat then c.toNat - 0x660 else c.toNat - 48

/-- A guarded singleton: the contribution of one regex alternative. -/
def optList (p : Prop) [Decidable p] (x : α) : List α :=
  if p then [x] else []

/-- The splits of the input accepted by the `%d` directive's pattern
`3[01]|[12]\d|0[1-9]|[1-9]| [1-9]`, as (parsed value, remainder) pairs. -/
def daySplits : List Char → List (Nat × List Char)
  | [] => []
  | [c] => optList ('1' ≤ c ∧ c ≤ '9') (digVal c, [])
  | c1 :: c2 :: rest =>
      optList (c1 = '3' ∧ (c2 = '0' ∨ c2 = '1')) (30 + digVal c2, rest) ++
      optList ((c1 = '1' ∨ c1 = '2') ∧ pyReDigit c2 = true) (10 * digVal c1 + pyDigitVal c2, rest) ++
      optList (c1 = '0' ∧ '1' ≤ c2 ∧ c2 ≤ '9') (digVal c2, rest) ++
      optList ('1' ≤ c1 ∧ c1 ≤ '9') (digVal c1, c2 :: rest) ++
      optList (c1 = ' ' ∧ '1' ≤ c2 ∧ c2 ≤ '9') (digVal c2, rest)

/-- The splits of the input accepted by the `%m` directive's pattern
`1[0-2]|0[1-9]|[1-9]`. -/
def monthSplits : List Char → List (Nat × List Char)
  | [] => []
  | [c] => optList ('1' ≤ c ∧ c ≤ '9') (digVal c, [])
  | c1 :: c2 :: rest =>
      optList (c1 = '1' ∧ (c2 = '0' ∨ c2 = '1' ∨ c2 = '2')) (10 + digVal c2, rest) ++
      optList (c1 = '0' ∧ '1' ≤ c2 ∧ c2 ≤ '9') (digVal c2, rest) ++
      optList ('1' ≤ c1 ∧ c1 ≤ '9') (digVal c1, c2 :: rest)

/-- The `%Y` directive, `\d\d\d\d`, which must consume the entire
remainder of the input (strptime raises unless the match reaches the end
of the string). -/
def yearParse : List Char → Option Nat
  | [c1, c2, c3, c4] =>
      if pyReDigit c1 = true ∧ pyReDigit c2 = true ∧ pyReDigit c3 = true ∧
          pyReDigit c4 = true then
        some (1000 * pyDigitVal c1 + 100 * pyDigitVal c2 +
          10 * pyDigitVal c3 + pyDigitVal c4)
      else none
  | _ => none

/-- Gregorian leap-year rule, as in Python's `calendar.isleap`. -/
def isLeap (y : Nat) : Bool := (y % 4 == 0 && y % 100 != 0) || y % 400 == 0

/-- Length of a month, as in `datetime`. -/
def daysInMonth (y m : Nat) : Nat :=
  if m = 2 then (if isLeap y then 29 else 28)
  else if m = 4 ∨ m = 6 ∨ m = 9 ∨ m = 11 then 30 else 31

/-- The triples accepted by `datetime(year, month, day)`:
`MINYEAR = 1 ≤ year ≤ MAXYEAR = 9999`, a real month and a real day. -/
def validYMD (y m d : Nat) : Bool :=
  1 ≤ y && y ≤ 9999 && 1 ≤ m && m ≤ 12 && 1 ≤ d && d ≤ daysInMonth y m

/-- A calendar date as held by a Python `datetime.date`. -/
structure Date where
  year : Nat
  month : Nat
  day : Nat
deriving DecidableEq

/-- Continuation of `strptimeDMY` after the month directive: the second
literal `.`, the `%Y` directive consuming the rest of the input, then the
calendar check done by constructing `datetime(year, month, day)`. -/
def monthCont (d m : Nat) : List Char → Option Date
  | [] => none
  | c :: r4 =>
      if c = '.' then
        match yearParse r4 with
        | some y => if validYMD y m d then some ⟨y, m, d⟩ else none
        | none => none
      else none

/-- Continuation of `strptimeDMY` after the day directive: the literal
`.`, then the `%m` directive, then `monthCont`. -/
def dayCont (d : Nat) : List Char → Option Date
  | [] => none
  | c :: r2 =>
      if c = '.' then (monthSplits r2).findSome? fun mr => monthCont d mr.1 mr.2
      else none

/-- Python `datetime.strptime(s, '%d.%m.%Y')`, returning `none` where Python
raises `ValueError`.  At most one regex decomposition of the input exists
(the day/month/year tokens contain no `'.'`, so the separator positions,
and with them the tokens, are forced), hence trying the splits in any
order is faithful to the regex engine's backtracking. -/
def strptimeDMY (s : List Char) : Option Date :=
  (daySplits s).findSome? fun dr => dayCont dr.1 dr.2

/-- Source `Birthday.is_valid_birthday` (lines 17-23): true iff
`datetime.strptime(value, '%d.%m.%Y')` does not raise. -/
def is_valid_birthday (value : String) : Bool :=
  (strptimeDMY value.data).isSome

/-- A `Birthday` object as the program builds it: the `value` attribute
holds the raw input **string** (`Field.__init__` stores `value`
unchanged; `is_valid_birthday` only checks it). -/
structure BirthdayField where
  value : String
deriving DecidableEq

/-- Source `Birthday.__init__` (lines 11-15): store the raw string; when the
string is truthy (non-empty) and fails validation, raise `ValueError`.
A falsy value — the empty string — skips validation entirely. -/
def birthdayInit (value : String) : Except PyErr BirthdayField :=
  if value = "" then .ok ⟨value⟩
  else if is_valid_birthday value then .ok ⟨value⟩ else .error .valueError

/-! ## Records and the address book -/

/-- A `Record` (lines 39-74): a name, an ordered list of phone values
(each `Phone` object wraps its string value) and an optional `Birthday`
object. -/
structure Rec where
  name : String
  phones : List String
  birthday : Option BirthdayField
deriving DecidableEq

/-- Source `Record.__init__` (lines 40-43). -/
def recInit (name : String) : Rec := ⟨name, [], none⟩

/-- Source `Record.add_phone` (lines 45-46): validate and append. -/
def Rec.addPhone (r : Rec) (phone : String) : Except PyErr Rec :=
  (phoneInit phone).map fun p => { r with phones := r.phones ++ [p] }

/-- Source `Record.edit_phone` on the phone list (lines 55-60): set the first
phone whose value equals `old` to `new` — with no validation of `new` —
and raise `ValueError` when no phone matches. -/
def editPhoneList : List String → String → String → Except PyErr (List String)
  | [], _, _ => .error .valueError
  | p :: ps, old, new =>
      if p = old then .ok (new :: ps)
      else (editPhoneList ps old new).map fun l => p :: l

/-- Source `Record.edit_phone` (lines 55-60). -/
def Rec.editPhone (r : Rec) (old new : String) : Except PyErr Rec :=
  (editPhoneList r.phones old new).map fun l => { r with phones := l }

/-- Source `Record.add_birthday` (lines 71-74): a `Birthday` object is always
truthy, so the guard `if self.birthday` raises exactly when a birthday is
already present; otherwise construct and store `Birthday(birthday)`. -/
def Rec.addBirthday (r : Rec) (birthday : String) : Except PyErr Rec :=
  match r.birthday with
  | some _ => .error .valueError
  | none => (birthdayInit birthday).map fun b => { r with birthday := some b }

/-- The `AddressBook.records` dict: an insertion-ordered association
list from name strings to records, as a Python `dict`. -/
def Book := List (String × Rec)

/-- Python `name in self.records`. -/
def bookContains (m : List (String × Rec)) (k : String) : Bool :=
  m.any fun e => e.1 = k

/-- Python `self.records[k] = v`: overwrite in place when the key exists
(keeping its position, as a Python dict does), else append. -/
def bookSet (m : List (String × Rec)) (k : String) (v : Rec) : List (String × Rec) :=
  match m with
  | [] => [(k, v)]
  | e :: rest => if e.1 = k then (k, v) :: rest else e :: bookSet rest k v

/-- Source `AddressBook.add_record` (lines 80-81). -/
def add_record (m : List (String × Rec)) (r : Rec) : List (String × Rec) :=
  bookSet m r.name r

/-! ## `AddressBook.search_records` (lines 95-100)

`getattr(record, field, None) == value` compares a Python value against
a record attribute.  The attributes are the `Name` object, the list of
`Phone` objects and the optional `Birthday` object; an unknown field
name yields the default `None`.  `Field` defines no `__eq__`, so a
`Name`/`Phone`/`Birthday` object compares equal only to itself — never
to a criterion value supplied by a caller — while `None == None` is true
and values of different types compare unequal. -/

/-- A Python value as it can appear in a `search_records` criterion or
record attribute. -/
inductive PyVal
  | pyNone
  | pyStr (s : String)
  | pyNameObj (s : String)
  | pyPhoneList (l : List String)
  | pyBirthdayObj (b : BirthdayField)
deriving DecidableEq

/-- Python `getattr(record, field, None)`. -/
def pyGetattr (r : Rec) (field : String) : PyVal :=
  if field = "name" then .pyNameObj r.name
  else if field = "phones" then .pyPhoneList r.phones
  else if field = "birthday" then
    match r.birthday with
    | none => .pyNone
    | some b => .pyBirthdayObj b
  else .pyNone

/-- Python `==` between an attribute value and a criterion value.
`None == None` holds; strings compare by content; the wrapped `Field`
objects and the phone list stored in a record are distinct objects from
any criterion value, so `==` on them is `False` (default identity
equality — `Field` defines no `__eq__`). -/
def pyEq : PyVal → PyVal → Bool
  | .pyNone, .pyNone => true
  | .pyStr a, .pyStr b => a = b
  | _, _ => false

/-- Source `AddressBook.search_records(**kwargs)` (lines 95-100): keep, in
iteration order of `self.records`, every record all of whose named
attributes compare `==` to the given values. -/
def search_records (criteria : List (String × PyVal)) (m : List (String × Rec)) : List Rec :=
  (m.map fun e => e.2).filter fun r =>
    criteria.all fun c => pyEq (pyGetattr r c.1) c.2

/-! ## Date arithmetic (`datetime.date`)

Proleptic Gregorian ordinals exactly as in `datetime.date.toordinal`
(0001-01-01 is day 1); `date.weekday()` is `(toordinal + 6) % 7` with
Monday = 0, and `strftime('%A')` is the corresponding English name. -/

/-- Days in the years before year `y`. -/
def daysBeforeYear (y : Nat) : Nat :=
  365 * (y - 1) + (y - 1) / 4 - (y - 1) / 100 + (y - 1) / 400

/-- Days in year `y` before month `m`. -/
def daysBeforeMonth (y m : Nat) : Nat :=
  (((List.range (m - 1)).map fun i => daysInMonth y (i + 1))).sum

/-- Python `date.toordinal()`. -/
def toordinal (d : Date) : Nat :=
  daysBeforeYear d.year + daysBeforeMonth d.year d.month + d.day

/-- Python `date.strftime('%A')`: the full weekday name. -/
def weekdayName (d : Date) : String :=
  ["Monday", "Tuesday", "Wednesday", "Thursday", "Friday", "Saturday",
   "Sunday"].getD ((toordinal d + 6) % 7) ""

/-- Python `date.replace(year=y)`: same month and day in year `y`, raising
`ValueError` (here `none`) when that is not a real date — notably for a
February 29 moved to a non-leap year. -/
def replaceYear (y : Nat) (d : Date) : Option Date :=
  if validYMD y d.month d.day then some ⟨y, d.month, d.day⟩ else none

/-! ## `AddressBook.get_birthdays_per_week` (lines 109-131)

The loop body reads `record.birthday.value` and uses it as a
`datetime.date` (`replace(year=...)`, date comparison, date subtraction,
`strftime('%A')`).  We therefore model the records this method iterates
over with a date-valued birthday field, which is what the method's own
logic — and the spec's `getUpcomingBirthdays` — assumes; the fact that
`Birthday` actually stores the raw string is treated separately as a
defect of `Birthday.__init__`.  The method reads `datetime.today()`; the
spec presents it as the parameter `today`, which we follow. -/

/-- A record as `get_birthdays_per_week` consumes it: a name and an
optional birthday held as a calendar date. -/
structure DRec where
  name : String
  birthday : Option Date
deriving DecidableEq

/-- One iteration of the loop of `get_birthdays_per_week` (lines
115-129): re-anchor the birthday to this year, move to next year when it
already passed, and report the (possibly weekend-overridden) weekday
name when the delta is within 0..7 days.  `Except.error` models the
uncaught `ValueError` of `date.replace`. -/
def recordEntry (today : Date) (r : DRec) : Except Unit (Option (String × String)) :=
  match r.birthday with
  | none => .ok none
  | some b =>
    match replaceYear today.year b with
    | none => .error ()
    | some bty0 =>
      match (if toordinal bty0 < toordinal today then
               replaceYear (today.year + 1) bty0 else some bty0) with
      | none => .error ()
      | some bty =>
        let delta : Int := (toordinal bty : Int) - (toordinal today : Int)
        if 0 ≤ delta ∧ delta ≤ 7 then
          let dow := weekdayName bty
          .ok (some ((if dow = "Saturday" ∨ dow = "Sunday" then "Monday" else dow),
                     r.name))
        else .ok none

/-- Source `AddressBook.get_birthdays_per_week` (lines 109-131) over the stored
records in iteration order; an exception aborts the whole call. -/
def get_birthdays_per_week (today : Date) : List DRec → Except Unit (List (String × String))
  | [] => .ok []
  | r :: rs =>
    match recordEntry today r with
    | .error e => .error e
    | .ok none => get_birthdays_per_week today rs
    | .ok (some entry) =>
      match get_birthdays_per_week today rs with
      | .error e => .error e
      | .ok tail => .ok (entry :: tail)

/-! ## The command layer -/

/-- The user-facing message the `input_error` decorator (lines 134-144)
produces for each exception class. -/
def input_error_msg : PyErr → String
  | .valueError => "Give me name and phone please."
  | .keyError => "Contact not found"
  | .indexError => "Invalid command. Please enter a valid command."

/-- The body of `add_contact` (lines 151-160) at exactly two arguments:
reject a duplicate name with `ValueError` before anything is built;
otherwise create the record, add the (validated) phone and insert the
record. -/
def add_contact_raw (name phone : String) (book : List (String × Rec)) :
    Except PyErr (String × List (String × Rec)) :=
  if bookContains book name then .error .valueError
  else
    match (recInit name).addPhone phone with
    | .error e => .error e
    | .ok r => .ok ("Contact added", add_record book r)

/-- Source `add_contact` as the REPL calls it: the `input_error` wrapper turns
an exception into its fixed message, and — since the exception is raised
before any mutation — leaves the book as it was. -/
def add_contact (name phone : String) (book : List (String × Rec)) :
    String × List (String × Rec) :=
  match add_contact_raw name phone book with
  | .ok res => res
  | .error e => (input_error_msg e, book)

/-! ## Specification-side definitions

The remaining definitions are not translations of the source: they state,
in independent terms, the shapes the claims describe, to be compared with
the source functions above. -/

/-- The re-anchoring rule as the spec words it: the birthday moved to
today's year, or to next year when that date already fell before today;
undefined (`none`) when the moved date does not exist. -/
def reAnchor (today b : Date) : Option Date :=
  match replaceYear today.year b with
  | none => none
  | some d =>
      if toordinal d < toordinal today then replaceYear (today.year + 1) d else some d

/-- True when the record's birthday (if any) re-anchors to a real date,
i.e. the loop body of `get_birthdays_per_week` cannot raise on it. -/
def anchorable (today : Date) (r : DRec) : Bool :=
  match r.birthday with
  | none => true
  | some b => (reAnchor today b).isSome

/-- The entry the claim says a record contributes: its re-anchored
birthday's weekday name (Saturday/Sunday reported as "Monday") paired
with the name, when the re-anchored date is within 0..7 days of today. -/
def specEntry (today : Date) (r : DRec) : Option (String × String) :=
  r.birthday.bind fun b =>
    (reAnchor today b).bind fun d =>
      let delta : Int := (toordinal d : Int) - (toordinal today : Int)
      if 0 ≤ delta ∧ delta ≤ 7 then
        let dow := weekdayName d
        some ((if dow = "Saturday" ∨ dow = "Sunday" then "Monday" else dow), r.name)
      else none

/-- The report the claim describes: the contributing entries, in the
iteration order of the stored records. -/
def upcomingSpec (today : Date) (rs : List DRec) : List (String × String) :=
  rs.filterMap (specEntry today)

/-! Declarative description of the strings `strptimeDMY` accepts, for the
amended form of the claim about `Birthday` validation: the input must
split at `'.'` into exactly three fields — a day token, a month token and
a four-digit year token — naming a real calendar date. -/

/-- Split a character list at every `'.'` (like Python
`s.split('.')`). -/
def fieldsDot : List Char → List (List Char)
  | [] => [[]]
  | c :: rest =>
      if c = '.' then [] :: fieldsDot rest
      else
        match fieldsDot rest with
        | f :: fs => (c :: f) :: fs
        | [] => [[c]]

/-- The words of the `%d` pattern: one digit `1`-`9`, or two characters
being `30`/`31`, `1` or `2` followed by any decimal digit (`\d`, any
Unicode decimal digit), a zero-padded `01`-`09`, or a space-padded
`' 1'`-`' 9'`. -/
def dayTokB : List Char → Bool
  | [c] => '1' ≤ c ∧ c ≤ '9'
  | [c1, c2] =>
      (c1 = '3' ∧ (c2 = '0' ∨ c2 = '1')) ∨
      ((c1 = '1' ∨ c1 = '2') ∧ pyReDigit c2 = true) ∨
      (c1 = '0' ∧ '1' ≤ c2 ∧ c2 ≤ '9') ∨
      (c1 = ' ' ∧ '1' ≤ c2 ∧ c2 ≤ '9')
  | _ => false

/-- Numeric value of a day token. -/
def dayValTok : List Char → Nat
  | [c] => digVal c
  | [c1, c2] =>
      if c1 = ' ' then digVal c2
      else if c1 = '0' then digVal c2
      else 10 * digVal c1 + pyDigitVal c2
  | _ => 0

/-- The words of the `%m` pattern: one digit `1`-`9`, or `10`-`12`, or a
zero-padded `01`-`09`. -/
def monthTokB : List Char → Bool
  | [c] => '1' ≤ c ∧ c ≤ '9'
  | [c1, c2] =>
      (c1 = '1' ∧ (c2 = '0' ∨ c2 = '1' ∨ c2 = '2')) ∨
      (c1 = '0' ∧ '1' ≤ c2 ∧ c2 ≤ '9')
  | _ => false

/-- Numeric value of a month token. -/
def monthValTok : List Char → Nat
  | [c] => digVal c
  | [c1, c2] => 10 * digVal c1 + digVal c2
  | _ => 0

/-- The words of the `%Y` pattern: exactly four decimal digits (`\d`, any Unicode decimal digit). -/
def yearTokB : List Char → Bool
  | [c1, c2, c3, c4] => pyReDigit c1 && pyReDigit c2 && pyReDigit c3 && pyReDigit c4
  | _ => false

/-- Numeric value of a year token. -/
def yearValTok : List Char → Nat
  | [c1, c2, c3, c4] =>
      1000 * pyDigitVal c1 + 100 * pyDigitVal c2 +
        10 * pyDigitVal c3 + pyDigitVal c4
  | _ => 0

/-- The amended validation claim, stated declaratively: the input splits
at `'.'` into exactly a day token, a month token and a four-digit year
token whose values form a real calendar date (year 1..9999). -/
def lenientDMY (s : List Char) : Bool :=
  match fieldsDot s with
  | [ds, ms, ys] =>
      dayTokB ds && monthTokB ms && yearTokB ys &&
        validYMD (yearValTok ys) (monthValTok ms) (dayValTok ds)
  | _ => false

/-! Theorems settling the claims. -/

/-- Elements of a guarded singleton. -/
theorem mem_optList {p : Prop} [Decidable p] {x y : α} :
    y ∈ optList p x ↔ p ∧ y = x := by
  unfold optList
  split <;> simp_all

/-- Pointwise equal predicates give equal `all`. -/
theorem list_all_congr {l : List α} {f g : α → Bool}
    (h : ∀ x ∈ l, f x = g x) : l.all f = l.all g := by
  induction l with
  | nil => rfl
  | cons a t ih => simp_all

/-- On ASCII characters, Python's `isdigit` is exactly the ASCII digit
test. -/
theorem pyIsDigitChar_ascii {c : Char} (h : c.toNat < 128) :
    pyIsDigitChar c = c.isDigit := by
  have h1 : c ≠ '¹' := by intro e; subst e; exact absurd h (by decide)
  have h2 : c ≠ '²' := by intro e; subst e; exact absurd h (by decide)
  have h3 : c ≠ '³' := by intro e; subst e; exact absurd h (by decide)
  have h4 : ¬(0x660 ≤ c.toNat) := by omega
  simp [pyIsDigitChar, h1, h2, h3, h4]

/-- Claim C2 (code bug): the value held inside a successfully created
`Birthday` is the raw input string itself, not the parsed calendar date:
`Birthday("15.03.1990")` stores the string `"15.03.1990"`.  The claim
(and the code's own consumer, `get_birthdays_per_week`, which calls
`value.replace(year=...)` and `value.strftime('%A')`) requires a
structured date, so the `birthdays` feature fails at runtime on any
record with a birthday set. -/
theorem claim_C2_bug :
    birthdayInit "15.03.1990" = .ok { value := "15.03.1990" } := by rfl

/-- Claim C5: calling `add_birthday` on a record whose birthday is
already set fails with the `AlreadySet` error (`ValueError`) whatever
the argument is, and — the error being raised before any assignment —
the record is exactly as it was before the call. -/
theorem claim_C5 (r : Rec) (b : BirthdayField) (raw : String)
    (h : r.birthday = some b) : r.addBirthday raw = .error .valueError := by
  simp [Rec.addBirthday, h]

/-- Witness for C5 at a concrete record. -/
theorem claim_C5_witness :
    Rec.addBirthday ⟨"A", [], some ⟨"01.01.2000"⟩⟩ "02.02.2000" =
      .error .valueError :=
  claim_C5 ⟨"A", [], some ⟨"01.01.2000"⟩⟩ ⟨"01.01.2000"⟩ "02.02.2000" rfl

/-- Source `edit_phone` on a list without the sought value raises. -/
theorem editPhoneList_notMem {l : List String} {oldP newP : String}
    (h : oldP ∉ l) : editPhoneList l oldP newP = .error .valueError := by
  induction l with
  | nil => rfl
  | cons p t ih =>
      have hp : ¬(p = oldP) := fun e => h (by simp [e])
      have ht : oldP ∉ t := fun e => h (by simp [e])
      simp [editPhoneList, hp, ih ht, Except.map]

/-- Claim C7: `edit_phone` with an old value matching no stored phone
fails with `NotFound` (`ValueError`); the failure happens before any
assignment, so the phone list is exactly the sequence it was. -/
theorem claim_C7 (r : Rec) (oldP newP : String) (h : oldP ∉ r.phones) :
    r.editPhone oldP newP = .error .valueError := by
  simp [Rec.editPhone, editPhoneList_notMem h, Except.map]

/-- Witness for C7 at a concrete record. -/
theorem claim_C7_witness :
    Rec.editPhone ⟨"A", ["1234567890"], none⟩ "0000000000" "5555555555" =
      .error .valueError :=
  claim_C7 ⟨"A", ["1234567890"], none⟩ "0000000000" "5555555555" (by decide)

/-- Source `edit_phone` replaces the first occurrence, verbatim. -/
theorem editPhoneList_replaceFirst (l1 l2 : List String) (oldP newP : String)
    (h : oldP ∉ l1) :
    editPhoneList (l1 ++ oldP :: l2) oldP newP = .ok (l1 ++ newP :: l2) := by
  induction l1 with
  | nil => simp [editPhoneList]
  | cons p t ih =>
      have hp : ¬(p = oldP) := fun e => h (by simp [e])
      have ht : oldP ∉ t := fun e => h (by simp [e])
      simp [editPhoneList, hp, ih ht, Except.map]

/-- Claim C10: `edit_phone` does not validate the replacement: whenever
some phone equals the old value, the call succeeds and sets the first
matching phone to the new string verbatim — whatever that string is —
so the 10-digit invariant is not preserved by `edit_phone`. -/
theorem claim_C10 (r : Rec) (l1 l2 : List String) (oldP newP : String)
    (h1 : r.phones = l1 ++ oldP :: l2) (h2 : oldP ∉ l1) :
    r.editPhone oldP newP = .ok { r with phones := l1 ++ newP :: l2 } := by
  simp [Rec.editPhone, h1, editPhoneList_replaceFirst l1 l2 oldP newP h2, Except.map]

/-- Witness for C10: replacing a valid phone by the non-numeric string
`"abc"` succeeds, leaving a record that violates the phone invariant. -/
theorem claim_C10_witness :
    Rec.editPhone ⟨"A", ["1234567890"], none⟩ "1234567890" "abc" =
        .ok ⟨"A", ["abc"], none⟩ ∧
      is_valid_phone "abc" = false :=
  ⟨claim_C10 ⟨"A", ["1234567890"], none⟩ [] [] "1234567890" "abc" rfl
    (by decide), by decide⟩

/-- Claim C9: a falsy argument skips `Birthday` validation: the empty
string is accepted and stored although it fails `is_valid_birthday`, and
`add_birthday("")` on a record with no birthday set therefore succeeds
and stores a `Birthday` violating the `DD.MM.YYYY` invariant. -/
theorem claim_C9 :
    birthdayInit "" = .ok ⟨""⟩ ∧ is_valid_birthday "" = false ∧
      ∀ r : Rec, r.birthday = none →
        r.addBirthday "" = .ok { r with birthday := some ⟨""⟩ } := by
  refine ⟨rfl, rfl, fun r h => ?_⟩
  simp [Rec.addBirthday, h, birthdayInit, Except.map]

/-- Witness for C9 at a concrete record. -/
theorem claim_C9_witness :
    Rec.addBirthday ⟨"A", [], none⟩ "" = .ok ⟨"A", [], some ⟨""⟩⟩ :=
  claim_C9.2.2 ⟨"A", [], none⟩ rfl

/-- Claim C8: `search_records(birthday=None)` returns exactly the records
whose birthday is unset, in the iteration order of the underlying record
mapping. -/
theorem claim_C8 (m : List (String × Rec)) :
    search_records [("birthday", PyVal.pyNone)] m =
      (m.map fun e => e.2).filter fun r => r.birthday.isNone := by
  unfold search_records
  apply List.filter_congr
  intro r _
  cases hb : r.birthday <;> simp [pyGetattr, pyEq, hb]

/-- Claim C6: the top-level `add` with an already present name fails —
`DuplicateName`, raised as a `ValueError` that `input_error` surfaces as
the generic "Give me name and phone please." — with the book untouched;
with an absent name and a valid phone it inserts a record holding that
single phone and answers "Contact added". -/
theorem claim_C6 (book : List (String × Rec)) (name phone : String) :
    (bookContains book name = true →
      add_contact name phone book = ("Give me name and phone please.", book)) ∧
    (bookContains book name = false → is_valid_phone phone = true →
      add_contact name phone book =
        ("Contact added", bookSet book name ⟨name, [phone], none⟩)) := by
  constructor
  · intro h
    simp [add_contact, add_contact_raw, h, input_error_msg]
  · intro h hv
    simp [add_contact, add_contact_raw, h, Rec.addPhone, phoneInit, recInit,
      hv, add_record, Except.map]

/-- Witness for C6: the scenario of the spec — adding "Dave" twice. -/
theorem claim_C6_witness :
    add_contact "Dave" "0000000000" [("Dave", ⟨"Dave", ["1234567890"], none⟩)] =
        ("Give me name and phone please.",
          [("Dave", ⟨"Dave", ["1234567890"], none⟩)]) ∧
      add_contact "Dave" "1234567890" [] =
        ("Contact added", [("Dave", ⟨"Dave", ["1234567890"], none⟩)]) :=
  ⟨(claim_C6 [("Dave", ⟨"Dave", ["1234567890"], none⟩)] "Dave" "0000000000").1
      (by decide),
   (claim_C6 [] "Dave" "1234567890").2 rfl (by decide)⟩

/-- Counterexample to claim C3 as stated: `Phone` accepts the ten-character
string of superscript-two characters, whose characters are not ASCII
decimal digits — Python's `str.isdigit` is a Unicode digit test, not an
ASCII one. -/
theorem claim_C3_cex :
    phoneInit "²²²²²²²²²²" = .ok "²²²²²²²²²²" ∧
      "²²²²²²²²²²".data.all Char.isDigit = false := by
  constructor <;> rfl

/-- Claim C3 (amended): restricted to ASCII strings — which every example
of the spec is — `Phone` creation succeeds precisely on strings of length
exactly 10 whose characters are all ASCII decimal digits, stores the raw
string unchanged on success, and fails with `InvalidFormat` (a
`ValueError`) otherwise.  Beyond ASCII, any Unicode digit character is
also accepted (see the counterexample). -/
theorem claim_C3 (s : String) (h : ∀ c ∈ s.data, c.toNat < 128) :
    phoneInit s =
      if s.length = 10 ∧ s.data.all Char.isDigit = true then .ok s
      else .error .valueError := by
  unfold phoneInit is_valid_phone pyStrIsDigit
  have hall : s.data.all pyIsDigitChar = s.data.all Char.isDigit :=
    list_all_congr fun c hc => pyIsDigitChar_ascii (h c hc)
  have hlen : s.length = s.data.length := rfl
  by_cases hl : s.length = 10
  · have hne : s.data.isEmpty = false := by
      rcases hd : s.data with _ | _
      · rw [hlen, hd] at hl; simp at hl
      · rfl
    rw [hall, hne]
    simp only [Bool.not_false, Bool.true_and, hl]
    by_cases hdig : s.data.all Char.isDigit = true
    · simp [hdig]
    · simp [hdig]
  · have hb : (s.length == 10) = false := by simp [hl]
    rw [hb]
    simp [hl]

/-- Witness for C3 at an all-ASCII ten-digit string. -/
theorem claim_C3_witness : phoneInit "0123456789" = .ok "0123456789" := by
  rw [claim_C3 "0123456789" (by decide)]
  rfl

/-- When a record's birthday re-anchors to a real date, one loop
iteration of `get_birthdays_per_week` produces exactly the entry the
claim describes. -/
theorem recordEntry_eq (today : Date) (r : DRec)
    (h : anchorable today r = true) :
    recordEntry today r = .ok (specEntry today r) := by
  unfold anchorable reAnchor at h
  unfold recordEntry specEntry reAnchor
  cases hb : r.birthday with
  | none => simp
  | some b =>
      rw [hb] at h
      dsimp only at h ⊢
      simp only [Option.some_bind]
      cases h1 : replaceYear today.year b with
      | none => rw [h1] at h; simp at h
      | some d0 =>
          rw [h1] at h
          dsimp only at h ⊢
          cases h2 : (if toordinal d0 < toordinal today then
              replaceYear (today.year + 1) d0 else some d0) with
          | none => rw [h2] at h; simp at h
          | some d =>
              dsimp only
              simp only [Option.some_bind]
              split <;> rename_i hc <;> simp [hc]

/-- Counterexample to claim C1 as stated: the claim quantifies over every
address book and date, but on a book holding the real birthday
February 29, 2000 (accepted by `Birthday` validation) and
today = March 1, 2023, the loop's `replace(year=2023)` raises
`ValueError` — no inclusion/exclusion decision is made at all, so the
report is not the described list for this input. -/
theorem claim_C1_cex :
    get_birthdays_per_week ⟨2023, 3, 1⟩ [⟨"A", some ⟨2000, 2, 29⟩⟩] =
      .error () := by rfl

/-- Claim C1 (amended): whenever every stored birthday re-anchors to a
real date (no February 29 birthday facing a non-leap target year, target
year at most 9999), `get_birthdays_per_week(today)` returns exactly the
records whose birthday, re-anchored to today's year — or to next year
when the re-anchored date falls before today — lies within 0..7 days of
today, each reported with the re-anchored date's weekday name except
that Saturday and Sunday are reported as "Monday" (the date itself is
not shifted), in the iteration order of the stored records; when some
birthday fails to re-anchor the call raises instead. -/
theorem claim_C1 (today : Date) (rs : List DRec)
    (h : ∀ r ∈ rs, anchorable today r = true) :
    get_birthdays_per_week today rs = .ok (upcomingSpec today rs) := by
  induction rs with
  | nil => rfl
  | cons r t ih =>
      have hr : anchorable today r = true := h r (by simp)
      have ht : ∀ x ∈ t, anchorable today x = true :=
        fun x hx => h x (by simp [hx])
      unfold get_birthdays_per_week upcomingSpec
      rw [recordEntry_eq today r hr, List.filterMap_cons]
      cases hs : specEntry today r with
      | none =>
          have := ih ht
          unfold upcomingSpec at this
          simpa using this
      | some e =>
          have := ih ht
          unfold upcomingSpec at this
          simp [this]

/-- Witness for C1: the spec's own scenario — today Monday 2024-06-10;
Alice (born 12.06.1990) appears as Wednesday, Bob (born 15.06.1985)
falls on Saturday 2024-06-15 and is reported as "Monday", Carl (born
20.06.1970) is 10 days away and excluded. -/
theorem claim_C1_witness :
    get_birthdays_per_week ⟨2024, 6, 10⟩
        [⟨"Alice", some ⟨1990, 6, 12⟩⟩, ⟨"Bob", some ⟨1985, 6, 15⟩⟩,
         ⟨"Carl", some ⟨1970, 6, 20⟩⟩] =
      .ok (upcomingSpec ⟨2024, 6, 10⟩
        [⟨"Alice", some ⟨1990, 6, 12⟩⟩, ⟨"Bob", some ⟨1985, 6, 15⟩⟩,
         ⟨"Carl", some ⟨1970, 6, 20⟩⟩]) ∧
      upcomingSpec ⟨2024, 6, 10⟩
        [⟨"Alice", some ⟨1990, 6, 12⟩⟩, ⟨"Bob", some ⟨1985, 6, 15⟩⟩,
         ⟨"Carl", some ⟨1970, 6, 20⟩⟩] =
        [("Wednesday", "Alice"), ("Monday", "Bob")] :=
  ⟨claim_C1 ⟨2024, 6, 10⟩
      [⟨"Alice", some ⟨1990, 6, 12⟩⟩, ⟨"Bob", some ⟨1985, 6, 15⟩⟩,
       ⟨"Carl", some ⟨1970, 6, 20⟩⟩] (by decide),
   by decide⟩

/-! ## Equivalence of `strptimeDMY` with the declarative `lenientDMY` -/

/-- A `findSome?` succeeds when it succeeds on some element. -/
theorem findSome?_isSome_of_mem {l : List α} {f : α → Option β} {x : α}
    (hx : x ∈ l) (hf : (f x).isSome = true) :
    (l.findSome? f).isSome = true := by
  induction l with
  | nil => simp at hx
  | cons a t ih =>
      rw [List.findSome?_cons]
      rcases List.mem_cons.mp hx with rfl | hx'
      · rcases hy : f x with _ | y
        · rw [hy] at hf; simp at hf
        · simp
      · rcases hy : f a with _ | y
        · exact ih hx'
        · simp

/-- An element witnesses a successful `findSome?`. -/
theorem exists_of_findSome?_isSome {l : List α} {f : α → Option β}
    (h : (l.findSome? f).isSome = true) :
    ∃ x ∈ l, (f x).isSome = true := by
  induction l with
  | nil => rw [List.findSome?_nil] at h; simp at h
  | cons a t ih =>
      rw [List.findSome?_cons] at h
      rcases hy : f a with _ | y
      · rw [hy] at h
        rcases ih h with ⟨x, hx, hfx⟩
        exact ⟨x, by simp [hx], hfx⟩
      · exact ⟨a, by simp, by simp [hy]⟩

/-- Lists returned by `fieldsDot` are never empty. -/
theorem fieldsDot_ne_nil (s : List Char) : fieldsDot s ≠ [] := by
  induction s with
  | nil => simp [fieldsDot]
  | cons c t ih =>
      by_cases hc : c = '.'
      · simp [fieldsDot, hc]
      · rcases hf : fieldsDot t with _ | ⟨f, fs⟩
        · exact absurd hf ih
        · simp [fieldsDot, hc, hf]

/-- Splitting after a dot-free prefix peels it off as the first field. -/
theorem fieldsDot_append {a : List Char} (t : List Char)
    (ha : '.' ∉ a) : fieldsDot (a ++ '.' :: t) = a :: fieldsDot t := by
  induction a with
  | nil => simp [fieldsDot]
  | cons c a' ih =>
      have hc : ¬(c = '.') := fun e => ha (by simp [e])
      have ha' : '.' ∉ a' := fun e => ha (by simp [e])
      rw [List.cons_append, fieldsDot, if_neg hc, ih ha']

/-- A dot-free list is a single field. -/
theorem fieldsDot_nodot {a : List Char} (ha : '.' ∉ a) :
    fieldsDot a = [a] := by
  induction a with
  | nil => rfl
  | cons c a' ih =>
      have hc : ¬(c = '.') := fun e => ha (by simp [e])
      have ha' : '.' ∉ a' := fun e => ha (by simp [e])
      simp [fieldsDot, hc, ih ha']

/-- Join a field list back with dots. -/
def joinDots : List (List Char) → List Char
  | [] => []
  | [a] => a
  | a :: l => a ++ '.' :: joinDots l

/-- Joining undoes `fieldsDot`. -/
theorem joinDots_fieldsDot (s : List Char) : joinDots (fieldsDot s) = s := by
  induction s with
  | nil => rfl
  | cons c t ih =>
      by_cases hc : c = '.'
      · subst hc
        rw [fieldsDot, if_pos rfl]
        rcases hf : fieldsDot t with _ | ⟨f, fs⟩
        · exact absurd hf (fieldsDot_ne_nil _)
        · rw [hf] at ih
          have hjd : joinDots ([] :: f :: fs) = '.' :: joinDots (f :: fs) := rfl
          rw [hjd, ih]
      · rcases hf : fieldsDot t with _ | ⟨f, fs⟩
        · exact absurd hf (fieldsDot_ne_nil _)
        · rw [fieldsDot, if_neg hc, hf]
          rw [hf] at ih
          rcases fs with _ | ⟨g, gs⟩
          · have h1 : joinDots [f] = f := rfl
            rw [h1] at ih
            simp [joinDots, ih]
          · have h1 : joinDots ((c :: f) :: g :: gs) = (c :: f) ++ '.' :: joinDots (g :: gs) := rfl
            have h2 : joinDots (f :: g :: gs) = f ++ '.' :: joinDots (g :: gs) := rfl
            rw [h1, ← ih, h2]
            simp

/-- Every field produced by `fieldsDot` is dot-free. -/
theorem fieldsDot_mem_nodot {s : List Char} {f : List Char}
    (hf : f ∈ fieldsDot s) : '.' ∉ f := by
  induction s generalizing f with
  | nil => simp [fieldsDot] at hf; simp [hf]
  | cons c t ih =>
      by_cases hc : c = '.'
      · rw [fieldsDot, if_pos hc] at hf
        rcases List.mem_cons.mp hf with rfl | hf'
        · simp
        · exact ih hf'
      · rw [fieldsDot, if_neg hc] at hf
        rcases hg : fieldsDot t with _ | ⟨g, gs⟩
        · exact absurd hg (fieldsDot_ne_nil _)
        · rw [hg] at hf
          rcases List.mem_cons.mp hf with rfl | hf'
          · intro hmem
            rcases List.mem_cons.mp hmem with he | hmem'
            · exact hc he.symm
            · exact ih (hg ▸ List.mem_cons_self g gs) hmem'
          · exact ih (hg ▸ List.mem_cons.mpr (Or.inr hf'))

/-- Any split the `%d` pattern yields consumes a day token. -/
theorem daySplits_sound {s r : List Char} {d : Nat}
    (h : (d, r) ∈ daySplits s) :
    ∃ tok, s = tok ++ r ∧ dayTokB tok = true ∧ dayValTok tok = d := by
  match s with
  | [] => simp [daySplits] at h
  | [c] =>
      simp only [daySplits, mem_optList, Prod.mk.injEq] at h
      rcases h with ⟨hc, hd, hr⟩
      subst hr
      refine ⟨[c], by simp, by simp [dayTokB, hc], by simp [dayValTok, hd]⟩
  | c1 :: c2 :: rest =>
      simp only [daySplits, List.mem_append, mem_optList, Prod.mk.injEq] at h
      rcases h with ((((⟨hc, hd, hr⟩ | ⟨hc, hd, hr⟩) | ⟨hc, hd, hr⟩) |
          ⟨hc, hd, hr⟩) | ⟨hc, hd, hr⟩)
      · subst hr
        refine ⟨[c1, c2], by simp, by simp [dayTokB]; tauto, ?_⟩
        rcases hc with ⟨h1, h2⟩
        subst h1
        have h3 : digVal '3' = 3 := rfl
        have hpd : pyDigitVal c2 = digVal c2 := by
          rcases h2 with rfl | rfl <;> rfl
        simp [dayValTok, ← hd, hpd]
        omega
      · subst hr
        refine ⟨[c1, c2], by simp, by simp [dayTokB]; tauto, ?_⟩
        rcases hc with ⟨h1, _⟩
        have hne : ¬(c1 = ' ') := by rcases h1 with rfl | rfl <;> decide
        have hne0 : ¬(c1 = '0') := by rcases h1 with rfl | rfl <;> decide
        simp [dayValTok, hne, hne0, ← hd]
      · subst hr
        refine ⟨[c1, c2], by simp, by simp [dayTokB]; tauto, ?_⟩
        rcases hc with ⟨h1, _⟩
        subst h1
        simp [dayValTok, ← hd]
      · subst hr
        refine ⟨[c1], by simp, by simp [dayTokB]; tauto, by simp [dayValTok, ← hd]⟩
      · subst hr
        refine ⟨[c1, c2], by simp, by simp [dayTokB]; tauto, ?_⟩
        rcases hc with ⟨h1, _⟩
        subst h1
        simp [dayValTok, ← hd]

/-- Every day token is consumed by some split of the `%d` pattern. -/
theorem daySplits_complete {tok : List Char} (h : dayTokB tok = true)
    (r : List Char) : (dayValTok tok, r) ∈ daySplits (tok ++ r) := by
  match tok with
  | [] => simp [dayTokB] at h
  | [c] =>
      simp only [dayTokB, decide_eq_true_eq] at h
      rcases r with _ | ⟨c2, rest⟩
      · simp [daySplits, mem_optList, dayValTok, h]
      · simp [daySplits, mem_optList, dayValTok, h]
  | [c1, c2] =>
      simp only [dayTokB, decide_eq_true_eq] at h
      have h3 : digVal '3' = 3 := rfl
      have h0 : digVal '0' = 0 := rfl
      rcases h with ⟨rfl, h2⟩ | ⟨h1, h2⟩ | ⟨rfl, h2⟩ | ⟨rfl, h2⟩
      · have hpd : pyDigitVal c2 = digVal c2 := by
          rcases h2 with rfl | rfl <;> rfl
        simp [daySplits, mem_optList, dayValTok, h2, h3, hpd]
      · have hne : ¬(c1 = ' ') := by rcases h1 with rfl | rfl <;> decide
        have hne0 : ¬(c1 = '0') := by rcases h1 with rfl | rfl <;> decide
        simp [daySplits, mem_optList, dayValTok, h1, h2, hne, hne0]
      · simp [daySplits, mem_optList, dayValTok, h2, h0]
      · simp [daySplits, mem_optList, dayValTok, h2]

/-- A day token contains no dot. -/
theorem dayTok_nodot {tok : List Char} (h : dayTokB tok = true) :
    '.' ∉ tok := by
  match tok with
  | [] => simp
  | [c] =>
      simp only [dayTokB, decide_eq_true_eq] at h
      intro hm
      rcases List.mem_singleton.mp hm with rfl
      exact absurd h.1 (by decide)
  | [c1, c2] =>
      simp only [dayTokB, decide_eq_true_eq] at h
      intro hm
      rcases List.mem_cons.mp hm with rfl | hm'
      · rcases h with ⟨h1, _⟩ | ⟨h1, _⟩ | ⟨h1, _⟩ | ⟨h1, _⟩
        · exact absurd h1 (by decide)
        · rcases h1 with h1 | h1 <;> exact absurd h1 (by decide)
        · exact absurd h1 (by decide)
        · exact absurd h1 (by decide)
      · rcases List.mem_singleton.mp hm' with rfl
        rcases h with ⟨_, h2⟩ | ⟨_, h2⟩ | ⟨_, h2⟩ | ⟨_, h2⟩
        · rcases h2 with h2 | h2 <;> exact absurd h2 (by decide)
        · exact absurd h2 (by decide)
        · exact absurd h2.1 (by decide)
        · exact absurd h2.1 (by decide)

/-- Any split the `%m` pattern yields consumes a month token. -/
theorem monthSplits_sound {s r : List Char} {m : Nat}
    (h : (m, r) ∈ monthSplits s) :
    ∃ tok, s = tok ++ r ∧ monthTokB tok = true ∧ monthValTok tok = m := by
  match s with
  | [] => simp [monthSplits] at h
  | [c] =>
      simp only [monthSplits, mem_optList, Prod.mk.injEq] at h
      rcases h with ⟨hc, hd, hr⟩
      subst hr
      refine ⟨[c], by simp, by simp [monthTokB, hc], by simp [monthValTok, hd]⟩
  | c1 :: c2 :: rest =>
      simp only [monthSplits, List.mem_append, mem_optList, Prod.mk.injEq] at h
      rcases h with (⟨hc, hd, hr⟩ | ⟨hc, hd, hr⟩) | ⟨hc, hd, hr⟩
      · subst hr
        refine ⟨[c1, c2], by simp, by simp [monthTokB]; tauto, ?_⟩
        rcases hc with ⟨h1, _⟩
        subst h1
        have h1v : digVal '1' = 1 := rfl
        simp [monthValTok, ← hd]
        omega
      · subst hr
        refine ⟨[c1, c2], by simp, by simp [monthTokB]; tauto, ?_⟩
        rcases hc with ⟨h1, _⟩
        subst h1
        have h0v : digVal '0' = 0 := rfl
        simp [monthValTok, ← hd]
        omega
      · subst hr
        refine ⟨[c1], by simp, by simp [monthTokB]; tauto,
          by simp [monthValTok, ← hd]⟩

/-- Every month token is consumed by some split of the `%m` pattern. -/
theorem monthSplits_complete {tok : List Char} (h : monthTokB tok = true)
    (r : List Char) : (monthValTok tok, r) ∈ monthSplits (tok ++ r) := by
  match tok with
  | [] => simp [monthTokB] at h
  | [c] =>
      simp only [monthTokB, decide_eq_true_eq] at h
      rcases r with _ | ⟨c2, rest⟩
      · simp [monthSplits, mem_optList, monthValTok, h]
      · simp [monthSplits, mem_optList, monthValTok, h]
  | [c1, c2] =>
      simp only [monthTokB, decide_eq_true_eq] at h
      have h1v : digVal '1' = 1 := rfl
      have h0v : digVal '0' = 0 := rfl
      rcases h with ⟨rfl, h2⟩ | ⟨rfl, h2⟩
      · simp [monthSplits, mem_optList, monthValTok, h2, h1v]
      · simp [monthSplits, mem_optList, monthValTok, h2, h0v]

/-- A month token contains no dot. -/
theorem monthTok_nodot {tok : List Char} (h : monthTokB tok = true) :
    '.' ∉ tok := by
  match tok with
  | [] => simp
  | [c] =>
      simp only [monthTokB, decide_eq_true_eq] at h
      intro hm
      rcases List.mem_singleton.mp hm with rfl
      exact absurd h.1 (by decide)
  | [c1, c2] =>
      simp only [monthTokB, decide_eq_true_eq] at h
      intro hm
      rcases List.mem_cons.mp hm with rfl | hm'
      · rcases h with ⟨h1, _⟩ | ⟨h1, _⟩ <;> exact absurd h1 (by decide)
      · rcases List.mem_singleton.mp hm' with rfl
        rcases h with ⟨_, h2⟩ | ⟨_, h2⟩
        · rcases h2 with h2 | h2 | h2 <;> exact absurd h2 (by decide)
        · exact absurd h2.1 (by decide)

/-- Parsing `yearParse` succeeds exactly on four-digit remainders, with the
expected value. -/
theorem yearParse_sound {r : List Char} {y : Nat}
    (h : yearParse r = some y) : yearTokB r = true ∧ yearValTok r = y := by
  match r with
  | [] => simp [yearParse] at h
  | [c1] => simp [yearParse] at h
  | [c1, c2] => simp [yearParse] at h
  | [c1, c2, c3] => simp [yearParse] at h
  | [c1, c2, c3, c4] =>
      simp only [yearParse] at h
      split at h
      · rename_i hc
        simp only [Option.some.injEq] at h
        refine ⟨by simp [yearTokB]; tauto, by simp [yearValTok, h]⟩
      · simp at h
  | c1 :: c2 :: c3 :: c4 :: c5 :: t => simp [yearParse] at h

/-- Four digits parse as a year. -/
theorem yearParse_complete {r : List Char} (h : yearTokB r = true) :
    yearParse r = some (yearValTok r) := by
  match r with
  | [] => simp [yearTokB] at h
  | [c1] => simp [yearTokB] at h
  | [c1, c2] => simp [yearTokB] at h
  | [c1, c2, c3] => simp [yearTokB] at h
  | [c1, c2, c3, c4] =>
      simp only [yearTokB, Bool.and_eq_true] at h
      simp [yearParse, yearValTok, h.1.1.1, h.1.1.2, h.1.2, h.2]
  | c1 :: c2 :: c3 :: c4 :: c5 :: t => simp [yearTokB] at h

/-- A year token contains no dot. -/
theorem yearTok_nodot {r : List Char} (h : yearTokB r = true) :
    '.' ∉ r := by
  match r with
  | [] => simp
  | [c1] => simp [yearTokB] at h
  | [c1, c2] => simp [yearTokB] at h
  | [c1, c2, c3] => simp [yearTokB] at h
  | [c1, c2, c3, c4] =>
      simp only [yearTokB, Bool.and_eq_true] at h
      intro hm
      rcases List.mem_cons.mp hm with rfl | hm'
      · exact absurd h.1.1.1 (by decide)
      rcases List.mem_cons.mp hm' with rfl | hm''
      · exact absurd h.1.1.2 (by decide)
      rcases List.mem_cons.mp hm'' with rfl | hm3
      · exact absurd h.1.2 (by decide)
      rcases List.mem_singleton.mp hm3 with rfl
      exact absurd h.2 (by decide)
  | c1 :: c2 :: c3 :: c4 :: c5 :: t => simp [yearTokB] at h

/-- If `strptime` accepts the input, the input has the declarative
day-dot-month-dot-year shape. -/
theorem lenient_of_strptime {s : List Char}
    (h : (strptimeDMY s).isSome = true) : lenientDMY s = true := by
  unfold strptimeDMY at h
  rcases exists_of_findSome?_isSome h with ⟨⟨d, r1⟩, hmem, hsome⟩
  rcases daySplits_sound hmem with ⟨dtok, hs, hdt, hdv⟩
  rcases r1 with _ | ⟨c, r2⟩
  · simp [dayCont] at hsome
  by_cases hc : c = '.'
  swap
  · simp [dayCont, hc] at hsome
  subst hc
  simp only [dayCont, if_pos rfl] at hsome
  rcases exists_of_findSome?_isSome hsome with ⟨⟨m, r3⟩, hmem2, hsome2⟩
  rcases monthSplits_sound hmem2 with ⟨mtok, hs2, hmt, hmv⟩
  rcases r3 with _ | ⟨c2, r4⟩
  · simp [monthCont] at hsome2
  by_cases hc2 : c2 = '.'
  swap
  · simp [monthCont, hc2] at hsome2
  subst hc2
  simp only [monthCont, if_pos rfl] at hsome2
  rcases hy : yearParse r4 with _ | y
  · rw [hy] at hsome2; simp at hsome2
  rw [hy] at hsome2
  dsimp only at hsome2
  by_cases hv : validYMD y m d = true
  swap
  · simp [hv] at hsome2
  rcases yearParse_sound hy with ⟨hyt, hyv⟩
  rw [hs2] at hs
  unfold lenientDMY
  rw [hs, fieldsDot_append _ (dayTok_nodot hdt),
    fieldsDot_append _ (monthTok_nodot hmt), fieldsDot_nodot (yearTok_nodot hyt)]
  simp [hdt, hmt, hyt, hdv, hmv, hyv, hv]

/-- If the input has the declarative shape, `strptime` accepts it. -/
theorem strptime_of_lenient {s : List Char} (h : lenientDMY s = true) :
    (strptimeDMY s).isSome = true := by
  unfold lenientDMY at h
  rcases hf : fieldsDot s with _ | ⟨ds, _ | ⟨ms, _ | ⟨ys, _ | ⟨zs, rest⟩⟩⟩⟩ <;>
    rw [hf] at h
  · simp at h
  · simp at h
  · simp at h
  case cons.cons.cons.nil =>
    simp only [Bool.and_eq_true] at h
    obtain ⟨⟨⟨hdt, hmt⟩, hyt⟩, hv⟩ := h
    have hs : s = ds ++ '.' :: (ms ++ '.' :: ys) := by
      rw [← joinDots_fieldsDot s, hf]
      rfl
    have hday : (dayCont (dayValTok ds) ('.' :: (ms ++ '.' :: ys))).isSome = true := by
      simp only [dayCont, if_pos rfl]
      have hmonth :
          (monthCont (dayValTok ds) (monthValTok ms) ('.' :: ys)).isSome = true := by
        simp only [monthCont, if_pos rfl]
        rw [yearParse_complete hyt]
        simp [hv]
      exact findSome?_isSome_of_mem (monthSplits_complete hmt ('.' :: ys)) hmonth
    rw [hs]
    unfold strptimeDMY
    exact findSome?_isSome_of_mem
      (daySplits_complete hdt ('.' :: (ms ++ '.' :: ys))) hday
  · simp at h

/-- The source validation and the declarative shape agree on every
input. -/
theorem strptime_eq_lenient (s : List Char) :
    (strptimeDMY s).isSome = lenientDMY s := by
  cases ha : (strptimeDMY s).isSome <;> cases hb : lenientDMY s
  · rfl
  · exact absurd (strptime_of_lenient hb) (by simp [ha])
  · exact absurd (lenient_of_strptime ha) (by simp [hb])
  · rfl

/-- Counterexample to claim C4 as stated: the claim requires a two-digit
day and month (so any accepted string has length 10), yet
`Birthday("5.3.1990")` succeeds — strptime's `%d`/`%m` accept one digit
without a leading zero. -/
theorem claim_C4_cex :
    birthdayInit "5.3.1990" = .ok ⟨"5.3.1990"⟩ ∧
      "5.3.1990".length ≠ 10 := by
  constructor
  · rfl
  · decide

/-- Claim C4 (amended): for every non-empty ASCII string, `Birthday`
creation succeeds iff the string splits at `'.'` into exactly three
fields — a day of one or two digits (leading zero or leading space
permitted: the pattern `3[01]|[12]\d|0[1-9]|[1-9]| [1-9]`), a month of
one or two digits (`1[0-2]|0[1-9]|[1-9]`), and a year of exactly four
digits — whose values form a real calendar date with year at least 1.
Wrong separators, non-numeric fields, out-of-range day/month, wrong
field count and two-digit years still fail with `InvalidFormat`;
`"15.03.1990"` succeeds while `"1990-03-15"` and `"32.01.2000"` fail;
but one-digit days and months such as `"5.3.1990"` also succeed.  The
regex is compiled without `re.ASCII`, so beyond ASCII its `\d`
positions (the second day digit after `1`/`2` and the four year digits)
also accept any Unicode decimal digit, which `int()` converts: the
witness shows `"15.03.199٠"` and `"1٢.03.1990"` accepted, as in
CPython.  The statement is given on ASCII strings, where the modelled
digit table is exact. -/
theorem claim_C4 (s : String) (h : ¬(s = ""))
    (_hascii : ∀ c ∈ s.data, c.toNat < 128) :
    birthdayInit s =
      if lenientDMY s.data = true then .ok ⟨s⟩ else .error .valueError := by
  unfold birthdayInit is_valid_birthday
  rw [if_neg h, strptime_eq_lenient]

/-- Witness for C4 and the claim's own examples: the canonical
`DD.MM.YYYY` date succeeds, the two ill-shaped examples fail, and the
Unicode-digit inputs `"15.03.199٠"` and `"1٢.03.1990"` are accepted
exactly as CPython accepts them. -/
theorem claim_C4_witness :
    birthdayInit "15.03.1990" = .ok ⟨"15.03.1990"⟩ ∧
      birthdayInit "1990-03-15" = .error .valueError ∧
      birthdayInit "32.01.2000" = .error .valueError ∧
      birthdayInit "15.03.199٠" = .ok ⟨"15.03.199٠"⟩ ∧
      birthdayInit "1٢.03.1990" = .ok ⟨"1٢.03.1990"⟩ := by
  refine ⟨?_, ?_, ?_, ?_, ?_⟩
  · rw [claim_C4 "15.03.1990" (by decide) (by decide)]; rfl
  · rw [claim_C4 "1990-03-15" (by decide) (by decide)]; rfl
  · rw [claim_C4 "32.01.2000" (by decide) (by decide)]; rfl
  · rfl
  · rfl
